import Mathlib

/-!
# Verification of `src/components/signature.tsx`

Shallow embedding of the signature animation component: the seeded noise
generator, the timeline state machine (`seek`, `setSpeed`, `pause`, `play`,
`reset`, the RAF tick loop, `updatePathVisual`), the PNG export control flow,
and the GIF encoder (`encodeGIF`, `encodeFrame`, `buildColorTable`,
`quantizeColors`, `convertToIndexed`, `findNearestColor`, `lzwEncode`,
`packLZW`).

Modelling conventions:
* JavaScript numbers are modelled as exact rationals (`ℚ`); where the source
  applies a bitwise operator, JavaScript coerces the operand through `ToInt32`
  (truncate toward zero, reduce mod 2^32, interpret the high bit as sign).
  We model that coercion exactly.  The floating-point rounding that an IEEE
  double multiplication may introduce between two bitwise stages is not
  modelled (the products are taken exactly); every theorem proved below about
  the bit-level stages is established for *all* 32-bit inputs to those stages,
  so the statements are insensitive to this difference.
* `Uint8Array` values are `List ℕ` of byte values.
* DOM state written through `el.style` is carried as explicit fields of the
  path record.  Browser calls such as `Math.sin` are passed in as an
  uninterpreted function argument where they occur.
-/

namespace Signature

/-- `Math.max lo (Math.min hi x)` — the clamp pattern used throughout the
source (`Math.max(0, Math.min(1, t))` etc.). -/
def clampQ (lo hi x : ℚ) : ℚ := max lo (min hi x)

/-! ## ToInt32 machinery (JavaScript bitwise coercion) -/

/-- Truncation of a rational toward zero (JavaScript `ToIntegerOrInfinity`
step of `ToInt32`). -/
def ratTrunc (q : ℚ) : ℤ := if 0 ≤ q then ⌊q⌋ else ⌈q⌉

/-- Unsigned 32-bit representative of an integer (`ToInt32` before sign
interpretation). -/
def u32ofInt (n : ℤ) : ℕ := (n % (2 ^ 32 : ℤ)).toNat

/-- Unsigned 32-bit representative of a JS number. -/
def u32ofRat (q : ℚ) : ℕ := u32ofInt (ratTrunc q)

/-- Signed value of an unsigned 32-bit representative. -/
def s32 (w : ℕ) : ℤ := if w < 2 ^ 31 then (w : ℤ) else (w : ℤ) - 2 ^ 32

/-- JavaScript arithmetic shift right `>> k` on the unsigned representative:
for a negative value the sign bit is replicated into the top `k` bits. -/
def sar32 (w k : ℕ) : ℕ :=
  if w < 2 ^ 31 then w >>> k else (w >>> k) ||| (2 ^ 32 - 2 ^ (32 - k))

theorem u32ofInt_lt (n : ℤ) : u32ofInt n < 2 ^ 32 := by
  unfold u32ofInt
  have h := Int.emod_lt_of_pos n (b := (2 ^ 32 : ℤ)) (by norm_num)
  omega

theorem u32ofRat_lt (q : ℚ) : u32ofRat q < 2 ^ 32 := u32ofInt_lt _

/-- The final mixing stage `t ^ (t >> 16)` of the noise generator always
clears the sign bit: the result is a non-negative int32. -/
theorem xor_sar16_lt (w : ℕ) (hw : w < 2 ^ 32) :
    w ^^^ sar32 w 16 < 2 ^ 31 := by
  apply Nat.lt_pow_two_of_testBit
  intro i hi
  rw [Nat.testBit_xor]
  rcases Nat.lt_or_ge i 32 with hi32 | hi32
  · -- then i = 31
    have hieq : i = 31 := by omega
    subst hieq
    unfold sar32
    by_cases h31 : w < 2 ^ 31
    · have h1 : w.testBit 31 = false := Nat.testBit_lt_two_pow h31
      have h2 : (w >>> 16).testBit 31 = false := by
        rw [Nat.testBit_shiftRight]
        exact Nat.testBit_lt_two_pow (lt_of_lt_of_le hw (by norm_num))
      rw [if_pos h31, h1, h2]
      rfl
    · have h1 : w.testBit 31 = true := by
        rw [Nat.testBit_to_div_mod]
        have hd : w / 2 ^ 31 = 1 := by omega
        rw [hd]
        rfl
      have h2 : (w >>> 16).testBit 31 = false := by
        rw [Nat.testBit_shiftRight]
        exact Nat.testBit_lt_two_pow (lt_of_lt_of_le hw (by norm_num))
      have h3 : ((2 ^ 32 - 2 ^ (32 - 16) : ℕ)).testBit 31 = true := by decide
      rw [if_neg h31, Nat.testBit_or, h1, h2, h3]
      rfl
  · -- for i ≥ 32 both operands are below 2^i
    have hw' : w < 2 ^ i := lt_of_lt_of_le hw (Nat.pow_le_pow_right (by norm_num) hi32)
    have hs : sar32 w 16 < 2 ^ i := by
      unfold sar32
      by_cases h31 : w < 2 ^ 31
      · rw [if_pos h31]
        calc w >>> 16 ≤ w := by
              rw [Nat.shiftRight_eq_div_pow]; exact Nat.div_le_self _ _
        _ < 2 ^ i := hw'
      · rw [if_neg h31]
        apply Nat.lt_pow_two_of_testBit
        intro j hj
        rw [Nat.testBit_or]
        have hj32 : 32 ≤ j := le_trans hi32 hj
        have e1 : (w >>> 16).testBit j = false := by
          rw [Nat.testBit_shiftRight]
          exact Nat.testBit_lt_two_pow
            (lt_of_lt_of_le hw (Nat.pow_le_pow_right (by norm_num) (by omega)))
        have e2 : ((2 ^ 32 - 2 ^ (32 - 16) : ℕ)).testBit j = false := by
          exact Nat.testBit_lt_two_pow
            (lt_of_lt_of_le (by norm_num) (Nat.pow_le_pow_right (by norm_num) hj32))
        rw [e1, e2]
        rfl
    simp [Nat.testBit_lt_two_pow hw', Nat.testBit_lt_two_pow hs]

/-! ## `createNoise` (source lines 395–405) -/

/-- One call of the closure returned by `createNoise`: takes the captured
`state` and the argument `x`, returns the new `state` and the produced value.

```js
let t = state + x * 374761393;
t = (t ^ (t >> 13)) * 1274126177;
t = t ^ (t >> 16);
state = t;
const n = (t % 1000) / 1000;
return n * 2 - 1;
```
-/
def noiseCore (t : ℤ) : ℤ :=
  let w0 : ℕ := u32ofInt t
  let w1 : ℕ := w0 ^^^ sar32 w0 13
  let t1 : ℤ := s32 w1 * 1274126177
  let w2 : ℕ := u32ofInt t1
  let w3 : ℕ := w2 ^^^ sar32 w2 16
  s32 w3

def noiseStep (state x : ℚ) : ℚ × ℚ :=
  let t2 : ℤ := noiseCore (ratTrunc (state + x * 374761393))
  let n : ℚ := ((t2.tmod 1000 : ℤ) : ℚ) / 1000
  ((t2 : ℚ), n * 2 - 1)

/-- Sequence of values produced by successive calls of one generator,
starting from a given captured state. -/
def noiseRunFrom (state : ℚ) : List ℚ → List ℚ
  | [] => []
  | x :: xs =>
    let r := noiseStep state x
    r.2 :: noiseRunFrom r.1 xs

/-- `createNoise(seed)` (with `state = seed || 1`) applied to a list of
inputs: the list of returned values. -/
def noiseRun (seed : ℚ) (xs : List ℚ) : List ℚ :=
  noiseRunFrom (if seed = 0 then 1 else seed) xs

theorem s32_eq_of_lt {w : ℕ} (h : w < 2 ^ 31) : s32 w = (w : ℤ) := by
  unfold s32; rw [if_pos h]

theorem noiseCore_nonneg (t : ℤ) : 0 ≤ noiseCore t := by
  have hlt := xor_sar16_lt (u32ofInt (s32 (u32ofInt t ^^^ sar32 (u32ofInt t) 13)
    * 1274126177)) (u32ofInt_lt _)
  simp only [noiseCore]
  rw [s32_eq_of_lt hlt]
  positivity

theorem noiseStep_range (state x : ℚ) :
    -1 ≤ (noiseStep state x).2 ∧ (noiseStep state x).2 ≤ 1 := by
  unfold noiseStep
  set t2 : ℤ := noiseCore (ratTrunc (state + x * 374761393)) with ht2
  have h0 : 0 ≤ t2 := noiseCore_nonneg _
  have htm : t2.tmod 1000 = t2 % 1000 := Int.tmod_eq_emod h0 (by norm_num)
  have hm0 : 0 ≤ t2 % 1000 := Int.emod_nonneg _ (by norm_num)
  have hm1 : t2 % 1000 < 1000 := Int.emod_lt_of_pos _ (by norm_num)
  simp only [htm]
  have q0 : (0 : ℚ) ≤ ((t2 % 1000 : ℤ) : ℚ) := by exact_mod_cast hm0
  have q1 : ((t2 % 1000 : ℤ) : ℚ) ≤ 999 := by exact_mod_cast (by omega : t2 % 1000 ≤ 999)
  have h2 : ((t2 % 1000 : ℤ) : ℚ) / 1000 ≤ 999 / 1000 :=
    (div_le_div_iff_of_pos_right (by norm_num)).mpr q1
  have h3 : (0 : ℚ) ≤ ((t2 % 1000 : ℤ) : ℚ) / 1000 := by positivity
  constructor
  · linarith
  · linarith

theorem noiseRunFrom_range (xs : List ℚ) :
    ∀ (state y : ℚ), y ∈ noiseRunFrom state xs → -1 ≤ y ∧ y ≤ 1 := by
  induction xs with
  | nil => intro state y hy; simp [noiseRunFrom] at hy
  | cons x xs ih =>
    intro state y hy
    simp only [noiseRunFrom, List.mem_cons] at hy
    rcases hy with hy | hy
    · subst hy; exact noiseStep_range state x
    · exact ih _ y hy

/-- C7: every value produced by the generator returned by `createNoise`
lies in the closed interval `[-1, 1]`, for every integer seed and every
sequence of inputs. -/
theorem createNoise_range (seed : ℤ) (xs : List ℚ) (y : ℚ)
    (hy : y ∈ noiseRun (seed : ℚ) xs) : -1 ≤ y ∧ y ≤ 1 :=
  noiseRunFrom_range xs _ y hy

/-- Witness for C7 at seed 1, inputs `[0]`: the produced value is `73/125`. -/
theorem createNoise_range_witness :
    -1 ≤ (73 / 125 : ℚ) ∧ (73 / 125 : ℚ) ≤ 1 := by
  have hy : (73 / 125 : ℚ) ∈ noiseRun ((1 : ℤ) : ℚ) [0] := by
    have hst : (if ((1 : ℤ) : ℚ) = 0 then 1 else ((1 : ℤ) : ℚ)) = 1 := by norm_num
    have ht : ratTrunc ((1 : ℚ) + 0 * 374761393) = 1 := by
      unfold ratTrunc
      norm_num
    have hc : noiseCore 1 = 1274139792 := by decide
    have hv : (noiseStep 1 0).2 = 73 / 125 := by
      have hmod : Int.tmod 1274139792 1000 = 792 := by decide
      simp only [noiseStep]
      rw [ht, hc, hmod]
      norm_num
    simp only [noiseRun, noiseRunFrom, hst, List.mem_singleton]
    rw [hv]
  exact createNoise_range 1 [0] _ hy

/-- C8: the generator is deterministic — two generators created from equal
seeds and applied to equal input sequences produce equal output sequences
(the model has no entropy source: outputs are a function of seed and
inputs). -/
theorem createNoise_deterministic (s₁ s₂ : ℤ) (xs₁ xs₂ : List ℚ)
    (hs : s₁ = s₂) (hx : xs₁ = xs₂) :
    noiseRun (s₁ : ℚ) xs₁ = noiseRun (s₂ : ℚ) xs₂ := by
  subst hs; subst hx; rfl

/-- Witness for C8 at seed 1, inputs `[0]`. -/
theorem createNoise_deterministic_witness :
    noiseRun ((1 : ℤ) : ℚ) [0] = noiseRun ((1 : ℤ) : ℚ) [0] :=
  createNoise_deterministic 1 1 [0] [0] rfl rfl

/-! ## Timeline state machine -/

/-- `AnimationState` (source lines 222–227). -/
inductive AnimState where
  | idle
  | playing
  | paused
  | completed
  | looping
deriving DecidableEq

/-- `JitterConfig` (source lines 237–241).  `amplitude` and `seed` are
`Option` so that the destructuring defaults `amplitude = 0.5, seed = 1`
in `updatePathVisual` can be modelled. -/
structure JitterCfg where
  amplitude : Option ℚ
  frequency : ℚ
  seed : Option ℚ

/-- `PathRecord` (source lines 414–433), together with ghost invocation
counters for the lifecycle callbacks and explicit fields for the style
state written through `el.style`.  `refPresent` models
`record.ref.current !== null`; `hasStartCb` / `hasFrameCb` /
`hasCompleteCb` model the presence of the optional callbacks. -/
structure PathRec where
  refPresent : Bool
  length : ℚ
  duration : ℚ
  delay : ℚ
  color : Option String
  strokeWidth : Option ℚ
  jitter : Option (Option JitterCfg)
  easing : ℚ → ℚ
  hasStartCb : Bool
  hasFrameCb : Bool
  hasCompleteCb : Bool
  progress : ℚ
  hasStarted : Bool
  hasCompleted : Bool
  isPaused : Bool
  startCount : ℕ
  frameCount : ℕ
  completeCount : ℕ
  styleDashArray : Option (ℚ × ℚ)
  styleDashOffset : Option ℚ
  styleStroke : Option String
  styleStrokeWidth : Option ℚ
  styleTransform : Option (ℚ × ℚ)

/-- `record.jitter !== undefined ? record.jitter : config.jitter`
(source line 667–668). -/
def effJitter (cfgJitter : Option JitterCfg) (r : PathRec) : Option JitterCfg :=
  match r.jitter with
  | some j => j
  | none => cfgJitter

/-- The style-writing part of `updatePathVisual` (source lines 646–681):
stroke dash animation, color, base width, pressure simulation and jitter.
The sequential `el.style` writes of the source touch pairwise distinct
style fields, so they are recorded in one update.  `sinPi t` stands for
`Math.sin(t * Math.PI)`. -/
def applyStyle (pressure : Bool) (cfgJitter : Option JitterCfg) (sinPi : ℚ → ℚ)
    (r : PathRec) : PathRec :=
  let e := r.easing r.progress
  { r with
    styleDashArray := some (r.length, r.length)
    styleDashOffset := some (r.length * (1 - e))
    styleStroke :=
      match r.color with
      | some c => some c
      | none => r.styleStroke
    styleStrokeWidth :=
      match r.strokeWidth with
      | none => r.styleStrokeWidth
      | some sw =>
        if pressure ∧ sw ≠ 0 then some (sw * (0.8 + 0.6 * sinPi e)) else some sw
    styleTransform :=
      match effJitter cfgJitter r with
      | none => none
      | some jc =>
        if 0 < e ∧ e < 1 then
          let amplitude := jc.amplitude.getD 0.5
          let seed := jc.seed.getD 1
          let env := 1 - |0.5 - e| * 2
          let n1 := noiseStep (if seed = 0 then 1 else seed) (e * 100)
          let n2 := noiseStep n1.1 (e * 101)
          some (n1.2 * amplitude * env, n2.2 * amplitude * env)
        else none }

/-- The lifecycle-callback part of `updatePathVisual`
(source lines 683–696). -/
def applyLifecycle (r : PathRec) : PathRec :=
  let r1 :=
    if 0 < r.progress ∧ r.hasStarted = false ∧ r.hasStartCb = true then
      { r with hasStarted := true, startCount := r.startCount + 1 }
    else r
  if 1 ≤ r1.progress ∧ r1.hasCompleted = false ∧ r1.hasCompleteCb = true then
    { r1 with hasCompleted := true, completeCount := r1.completeCount + 1 }
  else r1

/-- `updatePathVisual` (source lines 641–702): no-op when the element ref
is empty, otherwise style updates followed by lifecycle callbacks. -/
def updatePathVisual (pressure : Bool) (cfgJitter : Option JitterCfg)
    (sinPi : ℚ → ℚ) (r : PathRec) : PathRec :=
  if r.refPresent = false then r
  else applyLifecycle (applyStyle pressure cfgJitter sinPi r)

/-- The timeline state held in the refs of `SignatureRoot`
(`stateRef`, `progressRef`, `startTimeRef`, `pausedAtRef`, `speedRef`,
`loopRef`, `durationTotalRef`) plus the relevant configuration and the
registered path records. -/
structure SigTimeline where
  state : AnimState
  progress : ℚ
  startTime : Option ℚ
  pausedAt : Option ℚ
  speed : ℚ
  loop : Bool
  total : ℚ
  cfgDuration : ℚ
  pressure : Bool
  cfgJitter : Option JitterCfg
  reducedMotion : Bool
  recs : List PathRec

/-- `applyProgressToPaths` (source lines 707–737). -/
def applyProgressToPaths (sinPi : ℚ → ℚ) (tl : SigTimeline) (gp : ℚ) :
    List PathRec :=
  tl.recs.map fun r =>
    if r.refPresent = false then r
    else if r.isPaused = true then r
    else
      let t := (gp * tl.total - r.delay) / r.duration
      let clamped := clampQ 0 1 t
      let r1 := updatePathVisual tl.pressure tl.cfgJitter sinPi
        { r with progress := clamped }
      if r1.hasFrameCb = true then { r1 with frameCount := r1.frameCount + 1 }
      else r1

/-- `durationTotalRef.current || config.duration` — the falsy fallback the
tick loop applies to the total duration (source line 756). -/
def effTotal (tl : SigTimeline) : ℚ :=
  if tl.total = 0 then tl.cfgDuration else tl.total

/-- `pause` (source lines 848–861). -/
def pause (now : ℚ) (tl : SigTimeline) : SigTimeline :=
  if tl.state ≠ .playing ∧ tl.state ≠ .looping then tl
  else { tl with pausedAt := some now, state := .paused }

/-- `seek` (source lines 900–925). -/
def seek (sinPi : ℚ → ℚ) (now p : ℚ) (tl : SigTimeline) : SigTimeline :=
  let clamped := clampQ 0 1 p
  let tl1 := { tl with progress := clamped }
  let targetElapsed := clamped * tl1.total / tl1.speed
  let tl2 := if tl1.state = .completed then { tl1 with state := .paused } else tl1
  let tl3 :=
    if tl2.state = .playing ∨ tl2.state = .looping then
      { tl2 with startTime := some (now - targetElapsed) }
    else if tl2.state = .paused then
      { tl2 with startTime := some (now - targetElapsed), pausedAt := some now }
    else tl2
  { tl3 with recs := applyProgressToPaths sinPi tl3 clamped }

/-- `setSpeed` (source lines 933–946). -/
def setSpeed (now m : ℚ) (tl : SigTimeline) : SigTimeline :=
  let newSpeed := max 0.1 (min 10 m)
  let tl1 :=
    if tl.state = .playing ∨ tl.state = .looping then
      match tl.startTime with
      | some st =>
        let elapsed := (now - st) * tl.speed
        { tl with startTime := some (now - elapsed / newSpeed) }
      | none => tl
    else tl
  { tl1 with speed := newSpeed }

/-- `play` (source lines 803–843).  `reducedMotion` bundles
`config.respectReducedMotion && matchMedia(...).matches`. -/
def play (sinPi : ℚ → ℚ) (now : ℚ) (tl : SigTimeline) : SigTimeline :=
  if tl.reducedMotion = true then
    let tl1 := seek sinPi now 1 tl
    { tl1 with state := .completed }
  else if tl.state = .playing ∨ tl.state = .looping then tl
  else
    let tl1 : SigTimeline :=
      if tl.state = .paused ∧ tl.pausedAt ≠ none ∧ tl.startTime ≠ none then
        let pausedElapsed := tl.pausedAt.getD 0 - tl.startTime.getD 0
        { tl with startTime := some (now - pausedElapsed) }
      else if tl.state = .completed ∨ tl.state = .idle then
        { tl with
          startTime := none
          progress := 0
          recs := tl.recs.map (fun r =>
            { r with hasStarted := false, hasCompleted := false }) }
      else tl
    { tl1 with state := .playing }

/-- `reset` (source lines 877–895). -/
def reset (sinPi : ℚ → ℚ) (tl : SigTimeline) : SigTimeline :=
  let tl1 := { tl with
    state := .idle
    progress := 0
    startTime := none
    pausedAt := none }
  { tl1 with recs := tl1.recs.map (fun r =>
      updatePathVisual tl1.pressure tl1.cfgJitter sinPi
        { r with progress := 0, hasStarted := false, hasCompleted := false }) }

/-- One invocation of `tickLoop` (source lines 746–798) at timestamp
`now`.  Scheduling further frames through `requestAnimationFrame` is
modelled by folding `tick` over a list of timestamps; the guard on
`stateRef` makes post-completion invocations no-ops exactly as in the
source. -/
def tick (sinPi : ℚ → ℚ) (now : ℚ) (tl : SigTimeline) : SigTimeline :=
  if tl.state ≠ .playing ∧ tl.state ≠ .looping then tl
  else
    let st := tl.startTime.getD now
    let tl1 := { tl with startTime := some st }
    let elapsed := (now - st) * tl1.speed
    let totalMs := effTotal tl1
    let progress := clampQ 0 1 (elapsed / totalMs)
    let tl2 := { tl1 with
      progress := progress
      recs := applyProgressToPaths sinPi tl1 progress }
    if 1 ≤ progress then
      if tl2.loop = true then
        { tl2 with
          state := .looping
          startTime := some now
          progress := 0
          recs := tl2.recs.map (fun r =>
            { r with hasStarted := false, hasCompleted := false }) }
      else
        { tl2 with
          state := .completed
          progress := 1
          startTime := none
          pausedAt := none
          recs := tl2.recs.map (fun r =>
            updatePathVisual tl2.pressure tl2.cfgJitter sinPi
              { r with progress := 1 }) }
    else tl2

/-- Folding the tick loop over a list of frame timestamps. -/
def runTicks (sinPi : ℚ → ℚ) (tl : SigTimeline) (times : List ℚ) : SigTimeline :=
  times.foldl (fun t now => tick sinPi now t) tl

/-- The progress value the tick loop would compute at time `now` with no
elapsed time in between (source lines 751–758). -/
def progressAt (now : ℚ) (tl : SigTimeline) : ℚ :=
  let st := tl.startTime.getD now
  let totalMs := effTotal tl
  clampQ 0 1 ((now - st) * tl.speed / totalMs)

theorem clampQ_bounds (x : ℚ) : 0 ≤ clampQ 0 1 x ∧ clampQ 0 1 x ≤ 1 := by
  unfold clampQ
  exact ⟨le_max_left _ _, max_le (by norm_num) (min_le_left _ _)⟩

/-- C5: for every input `p` to `seek` — including negative values and values
above 1 — the stored global progress equals `clamp(p, 0, 1)` and in
particular lies in `[0, 1]`. -/
theorem seek_progress_clamped (sinPi : ℚ → ℚ) (now p : ℚ) (tl : SigTimeline) :
    (seek sinPi now p tl).progress = clampQ 0 1 p ∧
    0 ≤ (seek sinPi now p tl).progress ∧ (seek sinPi now p tl).progress ≤ 1 := by
  have hp : (seek sinPi now p tl).progress = clampQ 0 1 p := by
    simp only [seek]
    split_ifs <;> rfl
  refine ⟨hp, ?_, ?_⟩
  · rw [hp]; exact (clampQ_bounds p).1
  · rw [hp]; exact (clampQ_bounds p).2

/-- C4: `setSpeed` stores `clamp(multiplier, 0.1, 10)` as the playback
speed, and when the timeline is playing or looping the progress computed
immediately after the call equals the progress immediately before it. -/
theorem setSpeed_clamps_and_preserves_progress (now m : ℚ) (tl : SigTimeline) :
    (setSpeed now m tl).speed = clampQ (1 / 10) 10 m ∧
    (tl.state = .playing ∨ tl.state = .looping →
      progressAt now (setSpeed now m tl) = progressAt now tl) := by
  have hclamp : max (0.1 : ℚ) (min 10 m) = clampQ (1 / 10) 10 m := by
    unfold clampQ; norm_num
  have hpos : (0 : ℚ) < max (0.1 : ℚ) (min 10 m) :=
    lt_of_lt_of_le (by norm_num) (le_max_left _ _)
  constructor
  · simp only [setSpeed]
    exact hclamp
  · intro h
    have hne : max (0.1 : ℚ) (min 10 m) ≠ 0 := ne_of_gt hpos
    simp only [setSpeed, progressAt, if_pos h]
    cases htl : tl.startTime with
    | none => simp [htl, sub_self]
    | some st =>
      simp only [htl, Option.getD_some]
      have key : (now - (now - (now - st) * tl.speed / max (0.1 : ℚ) (min 10 m))) *
          max (0.1 : ℚ) (min 10 m) = (now - st) * tl.speed := by
        field_simp
      rw [key]
      rfl

/-- A concrete timeline state: actively playing at progress `2/5` (the
spec's 0.4 scenario). -/
def tlSample : SigTimeline :=
  { state := .playing
    progress := 2 / 5
    startTime := some 0
    pausedAt := none
    speed := 1
    loop := false
    total := 1000
    cfgDuration := 1500
    pressure := false
    cfgJitter := none
    reducedMotion := false
    recs := [] }

/-- Witness for C4 at `now = 10`, multiplier `3`, on `tlSample`. -/
theorem setSpeed_witness :
    (setSpeed 10 3 tlSample).speed = clampQ (1 / 10) 10 3 ∧
    progressAt 10 (setSpeed 10 3 tlSample) = progressAt 10 tlSample :=
  ⟨(setSpeed_clamps_and_preserves_progress 10 3 tlSample).1,
   (setSpeed_clamps_and_preserves_progress 10 3 tlSample).2 (Or.inl rfl)⟩

/-! ## `exportPng` control flow (source lines 1111–1238) -/

/-- Environment outcomes for one `exportPng` call: whether the root
element and SVG element exist, whether the image load succeeds, whether a
2d canvas context is obtained, whether `drawImage` succeeds, and whether
`toBlob` delivers a blob. -/
structure PngEnv where
  rootExists : Bool
  svgExists : Bool
  imgLoads : Bool
  ctxOk : Bool
  drawOk : Bool
  blobOk : Bool

inductive PngOutcome where
  | resolved
  | rejected
deriving DecidableEq

/-- `exportPng` (source lines 1111–1238): captures `wasPlaying` and the
current progress, pauses and seeks to 1, then follows one of the exit
paths.  Restoration (`seek(currentProgress)`, then `play()` if it was
playing) happens in the image `onerror` handler, in the `onload` `catch`
handler and in the `toBlob` callback — but not on the no-root, no-svg or
context-acquisition-failure rejections. -/
def exportPng (env : PngEnv) (sinPi : ℚ → ℚ) (now1 now2 : ℚ)
    (tl : SigTimeline) : SigTimeline × PngOutcome :=
  let cur := tl.progress
  let tl1 := if tl.state = .playing ∨ tl.state = .looping then pause now1 tl else tl
  let tl2 := seek sinPi now1 1 tl1
  if env.rootExists = false then (tl2, .rejected)
  else if env.svgExists = false then (tl2, .rejected)
  else if env.imgLoads = false then
    let tl3 := seek sinPi now2 cur tl2
    let tl4 := if tl.state = .playing ∨ tl.state = .looping then play sinPi now2 tl3
      else tl3
    (tl4, .rejected)
  else if env.ctxOk = false then (tl2, .rejected)
  else if env.drawOk = false then
    let tl3 := seek sinPi now2 cur tl2
    let tl4 := if tl.state = .playing ∨ tl.state = .looping then play sinPi now2 tl3
      else tl3
    (tl4, .rejected)
  else
    let tl3 := seek sinPi now2 cur tl2
    let tl4 := if tl.state = .playing ∨ tl.state = .looping then play sinPi now2 tl3
      else tl3
    (tl4, if env.blobOk = false then .rejected else .resolved)

/-- The environment in which everything succeeds except that
`canvas.getContext("2d")` returns `null`. -/
def pngEnvCtxFail : PngEnv :=
  { rootExists := true
    svgExists := true
    imgLoads := true
    ctxOk := false
    drawOk := true
    blobOk := true }

/-- C3 (failing-input exhibit): calling `exportPng` on a timeline that is
playing at progress `2/5` when context acquisition fails leaves the
timeline paused at progress 1 — the pre-export playback state is *not*
restored on this rejection path, contradicting the claim. -/
theorem exportPng_ctx_failure_no_restore :
    tlSample.state = .playing ∧ tlSample.progress = 2 / 5 ∧
    (exportPng pngEnvCtxFail (fun _ => 0) 0 1 tlSample).2 = .rejected ∧
    (exportPng pngEnvCtxFail (fun _ => 0) 0 1 tlSample).1.state = .paused ∧
    (exportPng pngEnvCtxFail (fun _ => 0) 0 1 tlSample).1.progress = 1 := by
  refine ⟨rfl, rfl, ?_, ?_, ?_⟩ <;>
    norm_num [exportPng, pause, seek, applyProgressToPaths, clampQ, tlSample,
      pngEnvCtxFail]

/-! ## Jitter transform (C9) -/

/-- A neutral concrete path record. -/
def recBase : PathRec :=
  { refPresent := true
    length := 10
    duration := 100
    delay := 0
    color := none
    strokeWidth := none
    jitter := none
    easing := fun t => t
    hasStartCb := false
    hasFrameCb := false
    hasCompleteCb := true
    progress := 0
    hasStarted := false
    hasCompleted := false
    isPaused := false
    startCount := 0
    frameCount := 0
    completeCount := 0
    styleDashArray := none
    styleDashOffset := none
    styleStroke := none
    styleStrokeWidth := none
    styleTransform := none }

/-- A concrete jitter configuration. -/
def jcSample : JitterCfg := { amplitude := some 1, frequency := 0, seed := some 1 }

/-- A record whose easing maps everything to 2 while its own progress is
strictly inside (0, 1), with jitter configured. -/
def recC9 : PathRec :=
  { recBase with
    easing := fun _ => 2
    progress := 1 / 2
    jitter := some (some jcSample) }

theorem applyLifecycle_styleTransform (r : PathRec) :
    (applyLifecycle r).styleTransform = r.styleTransform := by
  simp only [applyLifecycle]
  split_ifs <;> rfl

theorem applyStyle_styleTransform (pressure : Bool) (cj : Option JitterCfg)
    (sinPi : ℚ → ℚ) (r : PathRec) :
    (applyStyle pressure cj sinPi r).styleTransform =
      match effJitter cj r with
      | none => none
      | some jc =>
        if 0 < r.easing r.progress ∧ r.easing r.progress < 1 then
          some ((noiseStep (if jc.seed.getD 1 = 0 then 1 else jc.seed.getD 1)
                   (r.easing r.progress * 100)).2 * jc.amplitude.getD 0.5 *
                   (1 - |0.5 - r.easing r.progress| * 2),
                (noiseStep (noiseStep (if jc.seed.getD 1 = 0 then 1
                   else jc.seed.getD 1) (r.easing r.progress * 100)).1
                   (r.easing r.progress * 101)).2 * jc.amplitude.getD 0.5 *
                   (1 - |0.5 - r.easing r.progress| * 2))
        else none := rfl

/-- C9 (counterexample): for `recC9` a jitter configuration is in effect
and the path's progress `1/2` is strictly between 0 and 1, yet the
per-path visual update *clears* the jitter transform (the source guards
on the eased progress, which is 2 here, not on the path's progress). -/
theorem updatePathVisual_jitter_counterexample :
    effJitter none recC9 = some jcSample ∧
    0 < recC9.progress ∧ recC9.progress < 1 ∧
    (updatePathVisual false none (fun _ => 0) recC9).styleTransform = none := by
  refine ⟨rfl, by norm_num [recC9, recBase], by norm_num [recC9, recBase], ?_⟩
  rw [updatePathVisual, if_neg (by decide), applyLifecycle_styleTransform,
    applyStyle_styleTransform]
  norm_num [effJitter, recC9, recBase]

/-- C9 (amended): in the per-path visual update (with the path element
attached), if a jitter configuration is in effect and the *eased* progress
is strictly between 0 and 1, the positional transform is set to the
per-axis noise value scaled by the jitter amplitude times the envelope
`1 - |0.5 - easedProgress| * 2`; when no jitter is in effect or the eased
progress is outside that open interval, the jitter transform is
cleared. -/
theorem updatePathVisual_jitter (pressure : Bool) (cj : Option JitterCfg)
    (sinPi : ℚ → ℚ) (r : PathRec) (href : r.refPresent = true) :
    ((effJitter cj r = none ∨ r.easing r.progress ≤ 0 ∨ 1 ≤ r.easing r.progress) →
      (updatePathVisual pressure cj sinPi r).styleTransform = none) ∧
    (∀ jc, effJitter cj r = some jc →
      0 < r.easing r.progress → r.easing r.progress < 1 →
      (updatePathVisual pressure cj sinPi r).styleTransform =
        some ((noiseStep (if jc.seed.getD 1 = 0 then 1 else jc.seed.getD 1)
                 (r.easing r.progress * 100)).2 * jc.amplitude.getD 0.5 *
                 (1 - |0.5 - r.easing r.progress| * 2),
              (noiseStep (noiseStep (if jc.seed.getD 1 = 0 then 1 else jc.seed.getD 1)
                 (r.easing r.progress * 100)).1 (r.easing r.progress * 101)).2 *
                 jc.amplitude.getD 0.5 * (1 - |0.5 - r.easing r.progress| * 2))) := by
  have hup : (updatePathVisual pressure cj sinPi r).styleTransform =
      (applyStyle pressure cj sinPi r).styleTransform := by
    rw [updatePathVisual, if_neg (by rw [href]; simp), applyLifecycle_styleTransform]
  constructor
  · intro hcl
    rw [hup, applyStyle_styleTransform]
    rcases hcl with hcl | hcl
    · rw [hcl]
    · cases heff : effJitter cj r with
      | none => rfl
      | some jc =>
        simp only
        rw [if_neg ?_]
        intro hcon
        rcases hcl with h | h
        · exact absurd hcon.1 (not_lt.mpr h)
        · exact absurd hcon.2 (not_lt.mpr h)
  · intro jc heff h0 h1
    rw [hup, applyStyle_styleTransform, heff]
    simp only
    rw [if_pos ⟨h0, h1⟩]

/-- A record with jitter configured, identity easing and progress `1/2`. -/
def recC9w : PathRec :=
  { recBase with
    progress := 1 / 2
    jitter := some (some jcSample) }

/-- Witness for the amended C9 theorem at `recC9w`: the jitter transform
is applied with the stated per-axis value. -/
theorem updatePathVisual_jitter_witness :
    (updatePathVisual false none (fun _ => 0) recC9w).styleTransform =
      some ((noiseStep (if jcSample.seed.getD 1 = 0 then 1 else jcSample.seed.getD 1)
               (recC9w.easing recC9w.progress * 100)).2 * jcSample.amplitude.getD 0.5 *
               (1 - |0.5 - recC9w.easing recC9w.progress| * 2),
            (noiseStep (noiseStep (if jcSample.seed.getD 1 = 0 then 1
               else jcSample.seed.getD 1) (recC9w.easing recC9w.progress * 100)).1
               (recC9w.easing recC9w.progress * 101)).2 *
               jcSample.amplitude.getD 0.5 *
               (1 - |0.5 - recC9w.easing recC9w.progress| * 2)) :=
  (updatePathVisual_jitter false none (fun _ => 0) recC9w rfl).2 jcSample rfl
    (by norm_num [recC9w, recBase]) (by norm_num [recC9w, recBase])

/-! ## One-shot lifecycle callbacks (C6) -/

theorem applyStyle_flags (pressure : Bool) (cj : Option JitterCfg)
    (sinPi : ℚ → ℚ) (r : PathRec) :
    (applyStyle pressure cj sinPi r).refPresent = r.refPresent ∧
    (applyStyle pressure cj sinPi r).hasCompleteCb = r.hasCompleteCb ∧
    (applyStyle pressure cj sinPi r).progress = r.progress ∧
    (applyStyle pressure cj sinPi r).hasCompleted = r.hasCompleted ∧
    (applyStyle pressure cj sinPi r).completeCount = r.completeCount :=
  ⟨rfl, rfl, rfl, rfl, rfl⟩

theorem applyLifecycle_flags (r : PathRec) :
    (applyLifecycle r).refPresent = r.refPresent ∧
    (applyLifecycle r).hasCompleteCb = r.hasCompleteCb ∧
    (applyLifecycle r).progress = r.progress := by
  simp only [applyLifecycle]
  split_ifs <;> exact ⟨rfl, rfl, rfl⟩

theorem applyLifecycle_count (r : PathRec) (k : ℕ)
    (h : r.completeCount = k + (if r.hasCompleted = true then 1 else 0)) :
    (applyLifecycle r).completeCount =
      k + (if (applyLifecycle r).hasCompleted = true then 1 else 0) := by
  simp only [applyLifecycle]
  split_ifs with h1 h2 h3 <;> simp_all

theorem applyLifecycle_mono (r : PathRec) (h : r.hasCompleted = true) :
    (applyLifecycle r).hasCompleted = true := by
  simp only [applyLifecycle]
  split_ifs <;> simp_all

theorem applyLifecycle_fires (r : PathRec) (h1 : 1 ≤ r.progress)
    (h2 : r.hasCompleteCb = true) :
    (applyLifecycle r).hasCompleted = true := by
  simp only [applyLifecycle]
  split_ifs with ha hb hc <;> simp_all

theorem applyLifecycle_no_fire (r : PathRec) (h1 : ¬ 1 ≤ r.progress)
    (h2 : r.hasCompleted = false) :
    (applyLifecycle r).hasCompleted = false := by
  simp only [applyLifecycle]
  split_ifs <;> simp_all

/-- The facts about `updatePathVisual` the counting argument needs:
element-ref and callback-presence are preserved, the completion counter
tracks the completion flag, and a completed flag never reverts. -/
theorem updatePathVisual_count (pressure : Bool) (cj : Option JitterCfg)
    (sinPi : ℚ → ℚ) (r : PathRec) (k : ℕ)
    (h : r.completeCount = k + (if r.hasCompleted = true then 1 else 0)) :
    (updatePathVisual pressure cj sinPi r).refPresent = r.refPresent ∧
    (updatePathVisual pressure cj sinPi r).hasCompleteCb = r.hasCompleteCb ∧
    (updatePathVisual pressure cj sinPi r).completeCount =
      k + (if (updatePathVisual pressure cj sinPi r).hasCompleted = true then 1 else 0) ∧
    (r.hasCompleted = true → (updatePathVisual pressure cj sinPi r).hasCompleted = true) := by
  by_cases href : r.refPresent = false
  · rw [updatePathVisual, if_pos href]
    exact ⟨rfl, rfl, h, fun hc => hc⟩
  · rw [updatePathVisual, if_neg href]
    obtain ⟨e1, e2, e3, e4, e5⟩ := applyStyle_flags pressure cj sinPi r
    obtain ⟨f1, f2, f3⟩ := applyLifecycle_flags (applyStyle pressure cj sinPi r)
    refine ⟨f1.trans e1, f2.trans e2, ?_, ?_⟩
    · exact applyLifecycle_count _ k (by rw [e5, e4]; exact h)
    · intro hc
      exact applyLifecycle_mono _ (e4.trans hc)

/-- If the element is attached, the callback present and progress at least
1, the visual update marks the path completed. -/
theorem updatePathVisual_fires (pressure : Bool) (cj : Option JitterCfg)
    (sinPi : ℚ → ℚ) (r : PathRec) (href : r.refPresent = true)
    (hcb : r.hasCompleteCb = true) (hp : 1 ≤ r.progress) :
    (updatePathVisual pressure cj sinPi r).hasCompleted = true := by
  unfold updatePathVisual
  rw [if_neg (by rw [href]; simp)]
  obtain ⟨e1, e2, e3, e4, e5⟩ := applyStyle_flags pressure cj sinPi r
  exact applyLifecycle_fires _ (e3 ▸ hp) (e2.trans hcb)

/-- The record-list invariant of the counting argument: every registered
path has its element attached and an `onDrawComplete` callback, and its
invocation counter equals `k` plus one exactly when its completion flag is
set. -/
def RecInv (k : ℕ) (rs : List PathRec) : Prop :=
  ∀ r ∈ rs, r.refPresent = true ∧ r.hasCompleteCb = true ∧
    r.completeCount = k + (if r.hasCompleted = true then 1 else 0)

/-- The timeline invariant: `RecInv` plus the fact that in the `completed`
state every path's completion flag is set. -/
def C6Inv (k : ℕ) (tl : SigTimeline) : Prop :=
  RecInv k tl.recs ∧
  (tl.state = .completed → ∀ r ∈ tl.recs, r.hasCompleted = true)

theorem applyProgressToPaths_recInv (sinPi : ℚ → ℚ) (tl : SigTimeline)
    (gp : ℚ) (k : ℕ) (h : RecInv k tl.recs) :
    RecInv k (applyProgressToPaths sinPi tl gp) := by
  intro r' hr'
  unfold applyProgressToPaths at hr'
  obtain ⟨r, hr, hmap⟩ := List.mem_map.mp hr'
  obtain ⟨h1, h2, h3⟩ := h r hr
  subst hmap
  by_cases hc1 : r.refPresent = false
  · rw [if_pos hc1]; exact ⟨h1, h2, h3⟩
  · rw [if_neg hc1]
    by_cases hc2 : r.isPaused = true
    · rw [if_pos hc2]; exact ⟨h1, h2, h3⟩
    · rw [if_neg hc2]
      simp only
      obtain ⟨u1, u2, u3, _⟩ := updatePathVisual_count tl.pressure tl.cfgJitter sinPi
        { r with progress := clampQ 0 1 ((gp * tl.total - r.delay) / r.duration) } k h3
      by_cases hf : (updatePathVisual tl.pressure tl.cfgJitter sinPi
          { r with progress := clampQ 0 1 ((gp * tl.total - r.delay) / r.duration) }).hasFrameCb = true
      · rw [if_pos hf]; exact ⟨u1.trans h1, u2.trans h2, u3⟩
      · rw [if_neg hf]; exact ⟨u1.trans h1, u2.trans h2, u3⟩

theorem tick_c6inv (sinPi : ℚ → ℚ) (now : ℚ) (tl : SigTimeline) (k : ℕ)
    (hloop : tl.loop = false) (hI : C6Inv k tl) : C6Inv k (tick sinPi now tl) := by
  obtain ⟨hrec, hcomp⟩ := hI
  simp only [tick]
  split_ifs with hg hp hl
  · exact ⟨hrec, hcomp⟩
  · exact absurd hl (by simp [hloop])
  · -- completion branch
    constructor
    · intro r' hr'
      simp only [List.mem_map] at hr'
      obtain ⟨r, hr, hmap⟩ := hr'
      obtain ⟨h1, h2, h3⟩ := applyProgressToPaths_recInv sinPi _ _ k hrec r hr
      subst hmap
      obtain ⟨u1, u2, u3, _⟩ := updatePathVisual_count _ _ sinPi
        { r with progress := 1 } k h3
      exact ⟨u1.trans h1, u2.trans h2, u3⟩
    · intro _ r' hr'
      simp only [List.mem_map] at hr'
      obtain ⟨r, hr, hmap⟩ := hr'
      obtain ⟨h1, h2, h3⟩ := applyProgressToPaths_recInv sinPi _ _ k hrec r hr
      subst hmap
      exact updatePathVisual_fires _ _ sinPi _ h1 h2 (by norm_num)
  · -- still running
    constructor
    · exact applyProgressToPaths_recInv sinPi _ _ k hrec
    · intro hst
      rcases not_and_or.mp hg with h | h <;> simp only [not_not] at h <;>
        simp [h] at hst

theorem tick_preserves (sinPi : ℚ → ℚ) (now : ℚ) (tl : SigTimeline) :
    (tick sinPi now tl).loop = tl.loop ∧
    (tick sinPi now tl).reducedMotion = tl.reducedMotion := by
  simp only [tick]
  split_ifs <;> exact ⟨rfl, rfl⟩

theorem runTicks_c6inv (sinPi : ℚ → ℚ) (times : List ℚ) :
    ∀ (tl : SigTimeline) (k : ℕ), tl.loop = false → C6Inv k tl →
      C6Inv k (runTicks sinPi tl times) ∧
      (runTicks sinPi tl times).loop = false ∧
      (runTicks sinPi tl times).reducedMotion = tl.reducedMotion := by
  induction times with
  | nil => intro tl k hl hI; exact ⟨hI, hl, rfl⟩
  | cons t ts ih =>
    intro tl k hl hI
    have hstep := tick_c6inv sinPi t tl k hl hI
    have hpres := tick_preserves sinPi t tl
    have := ih (tick sinPi t tl) k (hpres.1.trans hl) hstep
    exact ⟨this.1, this.2.1, this.2.2.trans hpres.2⟩

theorem play_idle_c6inv (sinPi : ℚ → ℚ) (now : ℚ) (tl : SigTimeline) (k : ℕ)
    (hrm : tl.reducedMotion = false) (hidle : tl.state = .idle)
    (h : ∀ r ∈ tl.recs, r.refPresent = true ∧ r.hasCompleteCb = true ∧
      r.completeCount = k) :
    C6Inv k (play sinPi now tl) ∧ (play sinPi now tl).loop = tl.loop ∧
    (play sinPi now tl).reducedMotion = false := by
  have hplay : play sinPi now tl =
      { tl with
        state := .playing
        startTime := none
        progress := 0
        recs := tl.recs.map (fun r =>
          { r with hasStarted := false, hasCompleted := false }) } := by
    unfold play
    rw [if_neg (by rw [hrm]; simp), if_neg (by rw [hidle]; simp),
      if_neg (by rw [hidle]; simp), if_pos (Or.inr hidle)]
  rw [hplay]
  refine ⟨⟨?_, ?_⟩, rfl, hrm⟩
  · intro r' hr'
    simp only [List.mem_map] at hr'
    obtain ⟨r, hr, hmap⟩ := hr'
    obtain ⟨h1, h2, h3⟩ := h r hr
    subst hmap
    exact ⟨h1, h2, by simp [h3]⟩
  · intro hco
    exact absurd hco (by simp)

theorem reset_c6inv (sinPi : ℚ → ℚ) (tl : SigTimeline) (k : ℕ)
    (h : ∀ r ∈ tl.recs, r.refPresent = true ∧ r.hasCompleteCb = true ∧
      r.completeCount = k) :
    (∀ r ∈ (reset sinPi tl).recs, r.refPresent = true ∧ r.hasCompleteCb = true ∧
      r.completeCount = k) ∧
    (reset sinPi tl).state = .idle ∧ (reset sinPi tl).loop = tl.loop ∧
    (reset sinPi tl).reducedMotion = tl.reducedMotion := by
  refine ⟨?_, rfl, rfl, rfl⟩
  intro r' hr'
  unfold reset at hr'
  simp only at hr'
  obtain ⟨r, hr, hmap⟩ := List.mem_map.mp hr'
  obtain ⟨h1, h2, h3⟩ := h r hr
  subst hmap
  obtain ⟨u1, u2, u3, _⟩ := updatePathVisual_count tl.pressure tl.cfgJitter sinPi
    { r with progress := 0, hasStarted := false, hasCompleted := false } k
    (by simpa using h3)
  refine ⟨u1.trans h1, u2.trans h2, ?_⟩
  rw [u3]
  have hnf : (updatePathVisual tl.pressure tl.cfgJitter sinPi
      { r with progress := 0, hasStarted := false, hasCompleted := false }).hasCompleted
      = false := by
    unfold updatePathVisual
    split_ifs with href
    · rfl
    · obtain ⟨e1, e2, e3, e4, e5⟩ := applyStyle_flags tl.pressure tl.cfgJitter sinPi
        { r with progress := 0, hasStarted := false, hasCompleted := false }
      exact applyLifecycle_no_fire _ (by rw [e3]; norm_num) e4
  rw [hnf]
  simp

/-- C6: over a full play-through driven by `tickLoop` from `idle` to
`completed` with loop disabled, each registered path (element attached,
`onDrawComplete` present, fresh flags) has its `onDrawComplete` callback
invoked exactly once — regardless of how many frame ticks observe progress
≥ 1 — and after a `reset` the next completed play-through fires it exactly
once more. -/
theorem tickLoop_onDrawComplete_once (sinPi : ℚ → ℚ) (tl : SigTimeline)
    (t0 t1 : ℚ) (times1 times2 : List ℚ)
    (hfresh : ∀ r ∈ tl.recs, r.refPresent = true ∧ r.hasCompleteCb = true ∧
      r.hasCompleted = false ∧ r.completeCount = 0)
    (hloop : tl.loop = false) (hrm : tl.reducedMotion = false)
    (hidle : tl.state = .idle)
    (hdone1 : (runTicks sinPi (play sinPi t0 tl) times1).state = .completed) :
    (∀ r ∈ (runTicks sinPi (play sinPi t0 tl) times1).recs, r.completeCount = 1) ∧
    ((runTicks sinPi (play sinPi t1
        (reset sinPi (runTicks sinPi (play sinPi t0 tl) times1))) times2).state
        = .completed →
      ∀ r ∈ (runTicks sinPi (play sinPi t1
        (reset sinPi (runTicks sinPi (play sinPi t0 tl) times1))) times2).recs,
        r.completeCount = 2) := by
  have hstart := play_idle_c6inv sinPi t0 tl 0 hrm hidle
    (fun r hr => ⟨(hfresh r hr).1, (hfresh r hr).2.1, (hfresh r hr).2.2.2⟩)
  have hloopp : (play sinPi t0 tl).loop = false := hstart.2.1.trans hloop
  obtain ⟨⟨hrec1, hcomp1⟩, hl1, hrm1⟩ :=
    runTicks_c6inv sinPi times1 (play sinPi t0 tl) 0 hloopp hstart.1
  have hall : ∀ r' ∈ (runTicks sinPi (play sinPi t0 tl) times1).recs,
      r'.refPresent = true ∧ r'.hasCompleteCb = true ∧ r'.completeCount = 1 := by
    intro r' hr'
    obtain ⟨a, b, c⟩ := hrec1 r' hr'
    have hflag := hcomp1 hdone1 r' hr'
    exact ⟨a, b, by simpa [hflag] using c⟩
  constructor
  · intro r hr
    exact (hall r hr).2.2
  · intro hdone2 r hr
    have hres := reset_c6inv sinPi (runTicks sinPi (play sinPi t0 tl) times1) 1 hall
    have hrm2 : (reset sinPi (runTicks sinPi (play sinPi t0 tl) times1)).reducedMotion
        = false := hres.2.2.2.trans (hrm1.trans hstart.2.2)
    have hplay2 := play_idle_c6inv sinPi t1
      (reset sinPi (runTicks sinPi (play sinPi t0 tl) times1)) 1 hrm2 hres.2.1 hres.1
    have hloop2 := hplay2.2.1.trans (hres.2.2.1.trans hl1)
    obtain ⟨⟨hrec2, hcomp2⟩, _, _⟩ :=
      runTicks_c6inv sinPi times2 _ 1 hloop2 hplay2.1
    obtain ⟨a, b, c⟩ := hrec2 r hr
    have hflag := hcomp2 hdone2 r hr
    simpa [hflag] using c

/-- A concrete idle timeline with a single fresh path record. -/
def tlW : SigTimeline :=
  { state := .idle
    progress := 0
    startTime := none
    pausedAt := none
    speed := 1
    loop := false
    total := 100
    cfgDuration := 1500
    pressure := false
    cfgJitter := none
    reducedMotion := false
    recs := [recBase] }

theorem animNe1 : AnimState.idle ≠ AnimState.playing := by decide

theorem animNe2 : AnimState.idle ≠ AnimState.looping := by decide

theorem animNe3 : AnimState.idle ≠ AnimState.paused := by decide

theorem animNe4 : AnimState.idle ≠ AnimState.completed := by decide

theorem animNe5 : AnimState.playing ≠ AnimState.looping := by decide

theorem animNe6 : AnimState.completed ≠ AnimState.playing := by decide

theorem animNe7 : AnimState.completed ≠ AnimState.looping := by decide

theorem clampQ_zero : clampQ 0 1 (0 : ℚ) = 0 := by
  unfold clampQ; norm_num [min_def, max_def]

theorem clampQ_one : clampQ 0 1 (1 : ℚ) = 1 := by
  unfold clampQ; norm_num [min_def, max_def]

theorem clampQ_two : clampQ 0 1 (2 : ℚ) = 1 := by
  unfold clampQ; norm_num [min_def, max_def]

theorem clampQ_nineteen_tenths : clampQ 0 1 (19 / 10 : ℚ) = 1 := by
  unfold clampQ; norm_num [min_def, max_def]

/-- Witness for C6: the single registered path of `tlW` fires its
completion callback exactly once over the play-through driven by frame
times `[0, 200]`, and exactly once more over a second play-through after
`reset`. -/
theorem tickLoop_onDrawComplete_once_witness :
    (∀ r ∈ (runTicks (fun _ => 0) (play (fun _ => 0) 0 tlW) [0, 200]).recs,
      r.completeCount = 1) ∧
    (∀ r ∈ (runTicks (fun _ => 0) (play (fun _ => 0) 300
        (reset (fun _ => 0) (runTicks (fun _ => 0) (play (fun _ => 0) 0 tlW) [0, 200])))
        [310, 500]).recs, r.completeCount = 2) := by
  have hfresh : ∀ r ∈ tlW.recs, r.refPresent = true ∧ r.hasCompleteCb = true ∧
      r.hasCompleted = false ∧ r.completeCount = 0 := by
    intro r hr
    simp only [tlW, List.mem_singleton] at hr
    subst hr
    exact ⟨rfl, rfl, rfl, rfl⟩
  have hdone1 : (runTicks (fun _ => 0) (play (fun _ => 0) 0 tlW) [0, 200]).state
      = .completed := by
    norm_num [runTicks, play, tick, tlW, recBase, applyProgressToPaths, effTotal,
      updatePathVisual, applyStyle, applyLifecycle, effJitter, clampQ_zero,
      clampQ_one, clampQ_two, animNe1, animNe2, animNe3, animNe4, animNe5]
  have h := tickLoop_onDrawComplete_once (fun _ => 0) tlW 0 300 [0, 200] [310, 500]
    hfresh rfl rfl rfl hdone1
  refine ⟨h.1, h.2 ?_⟩
  norm_num [runTicks, play, tick, reset, tlW, recBase, applyProgressToPaths, effTotal,
    updatePathVisual, applyStyle, applyLifecycle, effJitter, clampQ_zero, clampQ_one,
    clampQ_two, clampQ_nineteen_tenths, animNe1, animNe2, animNe3, animNe4,
    animNe5, animNe6, animNe7]

/-! ## GIF encoder (source lines 1392–1764) -/

/-- `ImageData`: RGBA byte data of a `width × height` bitmap.  The browser
invariant is `data.length = 4 * width * height`; out-of-range reads are
modelled as 0, which (like the `NaN` propagation of the source) makes an
out-of-range pixel transparent in `buildColorTable` and index 0 in
`convertToIndexed`. -/
structure Frame where
  width : ℕ
  height : ℕ
  data : List ℕ

/-- `arr[i]` for a byte array. -/
def byteAt (l : List ℕ) (i : ℕ) : ℕ := l.getD i 0

/-- `Math.max(1, Math.floor(10 / quality))` (source line 1486); `none`
models the `Infinity` step produced by `quality = 0`, which samples only
the first pixel. -/
def samplesOf (quality : ℚ) : Option ℕ :=
  if quality = 0 then none
  else some (max 1 (Int.toNat ⌊(10 : ℚ) / quality⌋))

/-- The loop indices `i = 0, step, 2*step, … < len`. -/
def samplePositions (len step i : ℕ) : List ℕ :=
  if step = 0 ∨ len ≤ i then [] else i :: samplePositions len step (i + step)
termination_by len - i
decreasing_by
  rename_i h
  push_neg at h
  omega

/-- The pixel offsets `buildColorTable` visits in one frame's data. -/
def framePositions (dataLen : ℕ) (samples : Option ℕ) : List ℕ :=
  match samples with
  | none => if dataLen = 0 then [] else [0]
  | some s => samplePositions dataLen (4 * s) 0

/-- `Set.add` with JS insertion order. -/
def insertColor (acc : List ℕ) (c : ℕ) : List ℕ :=
  if c ∈ acc then acc else acc ++ [c]

/-- The color-sampling loop of `buildColorTable` over one frame
(source lines 1489–1501): keep `(r << 16) | (g << 8) | b` of every
sampled pixel with alpha above 128. -/
def sampleFrameColors (samples : Option ℕ) (acc : List ℕ) (f : Frame) : List ℕ :=
  (framePositions f.data.length samples).foldl (fun acc i =>
    let r := byteAt f.data i
    let g := byteAt f.data (i + 1)
    let b := byteAt f.data (i + 2)
    let a := byteAt f.data (i + 3)
    if 128 < a then insertColor acc ((r <<< 16) ||| (g <<< 8) ||| b) else acc) acc

/-- The distinct colors sampled from all frames, in insertion order. -/
def sampledColors (frames : List Frame) (quality : ℚ) : List ℕ :=
  frames.foldl (sampleFrameColors (samplesOf quality)) []

/-- `r + g + b` of a packed color (the sort key of `quantizeColors`). -/
def sumRGB (c : ℕ) : ℕ :=
  ((c >>> 16) &&& 0xff) + ((c >>> 8) &&& 0xff) + (c &&& 0xff)

/-- `quantizeColors` (source lines 1529–1551): stable sort by component
sum, then 256 evenly spaced picks at `Math.floor(i * len / 256)`. -/
def quantizeColors (colors : List ℕ) (maxColors : ℕ) : List ℕ :=
  if colors.length ≤ maxColors then colors
  else
    let sorted := colors.mergeSort (fun a b => sumRGB a ≤ sumRGB b)
    (List.range maxColors).map (fun i => sorted.getD (i * colors.length / maxColors) 0)

/-- `buildColorTable` (source lines 1484–1524): sampled palette, quantized
to 256 colors when larger, padded with black to 256 entries, serialised as
768 RGB bytes. -/
def buildColorTable (frames : List Frame) (quality : ℚ) : List ℕ :=
  let palette0 := sampledColors frames quality
  let palette := if 256 < palette0.length then quantizeColors palette0 256 else palette0
  let padded := palette ++ List.replicate (256 - palette.length) 0
  ((List.range 256).map (fun i =>
    [(padded.getD i 0 >>> 16) &&& 0xff, (padded.getD i 0 >>> 8) &&& 0xff,
      padded.getD i 0 &&& 0xff])).flatten

/-- Squared Euclidean distance of `(r,g,b)` to palette entry `i`
(source line 1653). -/
def distRGB (r g b : ℕ) (table : List ℕ) (i : ℕ) : ℤ :=
  ((r : ℤ) - byteAt table (i * 3)) ^ 2 + ((g : ℤ) - byteAt table (i * 3 + 1)) ^ 2 +
    ((b : ℤ) - byteAt table (i * 3 + 2)) ^ 2

/-- The scan of `findNearestColor`: `md = none` is the initial
`minDist = Infinity`. -/
def nearestFrom (r g b : ℕ) (table : List ℕ) :
    List ℕ → Option ℤ → ℕ → ℕ
  | [], _, best => best
  | i :: is, md, best =>
    let d := distRGB r g b table i
    match md with
    | none => nearestFrom r g b table is (some d) i
    | some m =>
      if d < m then nearestFrom r g b table is (some d) i
      else nearestFrom r g b table is (some m) best

/-- `findNearestColor` (source lines 1639–1661). -/
def findNearestColor (r g b : ℕ) (table : List ℕ) : ℕ :=
  nearestFrom r g b table (List.range 256) none 0

/-- `convertToIndexed` (source lines 1612–1634). -/
def convertToIndexed (f : Frame) (table : List ℕ) : List ℕ :=
  (List.range (f.width * f.height)).map (fun i =>
    let r := byteAt f.data (i * 4)
    let g := byteAt f.data (i * 4 + 1)
    let b := byteAt f.data (i * 4 + 2)
    let a := byteAt f.data (i * 4 + 3)
    if a < 128 then 0 else findNearestColor r g b table)

/-- The loop state of `lzwEncode` (source lines 1666–1711), instrumented
with `widths`: the value of `codeSize` at the moment each code is pushed
to `output`. -/
structure LzwSt where
  dict : List (List ℕ × ℕ)
  nextCode : ℕ
  codeSize : ℕ
  buffer : List ℕ
  out : List ℕ
  widths : List ℕ

def lzwInit (minCodeSize : ℕ) : LzwSt :=
  { dict := (List.range (2 ^ minCodeSize)).map (fun i => ([i], i))
    nextCode := 2 ^ minCodeSize + 2
    codeSize := minCodeSize + 1
    buffer := []
    out := [2 ^ minCodeSize]
    widths := [minCodeSize + 1] }

def lzwStep (st : LzwSt) (byte : ℕ) : LzwSt :=
  let combined := st.buffer ++ [byte]
  if (st.dict.lookup combined).isSome then { st with buffer := combined }
  else
    let code := (st.dict.lookup st.buffer).getD 0
    let st1 := { st with out := st.out ++ [code], widths := st.widths ++ [st.codeSize] }
    let st2 :=
      if st1.nextCode < 4096 then
        let st' := { st1 with
          dict := st1.dict ++ [(combined, st1.nextCode)]
          nextCode := st1.nextCode + 1 }
        if 2 ^ st'.codeSize ≤ st'.nextCode ∧ st'.codeSize < 12 then
          { st' with codeSize := st'.codeSize + 1 }
        else st'
      else st1
    { st2 with buffer := [byte] }

def lzwFinish (st : LzwSt) (minCodeSize : ℕ) : LzwSt :=
  let st1 :=
    if st.buffer ≠ [] then
      { st with
        out := st.out ++ [(st.dict.lookup st.buffer).getD 0]
        widths := st.widths ++ [st.codeSize] }
    else st
  { st1 with
    out := st1.out ++ [2 ^ minCodeSize + 1]
    widths := st1.widths ++ [st1.codeSize] }

/-- The code stream `lzwEncode` hands to `packLZW`. -/
def lzwCodes (data : List ℕ) (minCodeSize : ℕ) : List ℕ :=
  (lzwFinish (data.foldl lzwStep (lzwInit minCodeSize)) minCodeSize).out

/-- The bit width the encoder's `codeSize` variable had when each code was
emitted. -/
def lzwWidths (data : List ℕ) (minCodeSize : ℕ) : List ℕ :=
  (lzwFinish (data.foldl lzwStep (lzwInit minCodeSize)) minCodeSize).widths

/-- The loop state of `packLZW` (source lines 1716–1764). -/
structure PackSt where
  bitBuffer : ℕ
  bitCount : ℕ
  codeSize : ℕ
  block : List ℕ
  out : List ℕ

/-- The inner `while (bitCount >= 8)` byte-draining loop: emit low byte,
flush a 255-byte sub-block (length prefix included) when full. -/
def drain (s : PackSt) : PackSt :=
  if 8 ≤ s.bitCount then
    drain
      (if (s.block ++ [s.bitBuffer &&& 0xff]).length = 255 then
        { s with
          bitBuffer := s.bitBuffer >>> 8
          bitCount := s.bitCount - 8
          block := []
          out := s.out ++ (s.block ++ [s.bitBuffer &&& 0xff]).length ::
            (s.block ++ [s.bitBuffer &&& 0xff]) }
      else
        { s with
          bitBuffer := s.bitBuffer >>> 8
          bitCount := s.bitCount - 8
          block := s.block ++ [s.bitBuffer &&& 0xff] })
  else s
termination_by s.bitCount
decreasing_by
  rename_i h
  split <;> simp <;> omega

/-- Processing one code in `packLZW`: append it at the current code size,
drain full bytes, then apply the packer's own code-size adjustment rule
(reset after a clear code; increment when the code value reaches
`2^codeSize - 1`). -/
def packStep (minCodeSize : ℕ) (s : PackSt) (code : ℕ) : PackSt :=
  let s1 := drain { s with
    bitBuffer := s.bitBuffer ||| (code <<< s.bitCount)
    bitCount := s.bitCount + s.codeSize }
  if code = 2 ^ minCodeSize then { s1 with codeSize := minCodeSize + 1 }
  else if 2 ^ s1.codeSize - 1 ≤ code ∧ s1.codeSize < 12 then
    { s1 with codeSize := s1.codeSize + 1 }
  else s1

/-- `packLZW` (source lines 1716–1764). -/
def packLZW (codes : List ℕ) (minCodeSize : ℕ) : List ℕ :=
  let s := codes.foldl (packStep minCodeSize)
    { bitBuffer := 0, bitCount := 0, codeSize := minCodeSize + 1, block := [], out := [] }
  let s1 := if 0 < s.bitCount then { s with block := s.block ++ [s.bitBuffer &&& 0xff] }
    else s
  let out1 := if s1.block ≠ [] then s1.out ++ s1.block.length :: s1.block else s1.out
  minCodeSize :: out1 ++ [0]

/-- The bit width `packLZW`'s own `codeSize` variable assigns to each code
as it is packed. -/
def packWidths (codes : List ℕ) (minCodeSize : ℕ) : List ℕ :=
  (codes.foldl (fun (p : ℕ × List ℕ) code =>
    let cs := p.1
    let cs' := if code = 2 ^ minCodeSize then minCodeSize + 1
      else if 2 ^ cs - 1 ≤ code ∧ cs < 12 then cs + 1 else cs
    (cs', p.2 ++ [cs])) (minCodeSize + 1, ([] : List ℕ))).2

/-- `lzwEncode` (source lines 1666–1711): build the code stream, then pack. -/
def lzwEncode (data : List ℕ) (minCodeSize : ℕ) : List ℕ :=
  packLZW (lzwCodes data minCodeSize) minCodeSize

/-- Graphics control extension of `encodeFrame` (source lines 1564–1573). -/
def gceBytes (delay : ℕ) : List ℕ :=
  [0x21, 0xf9, 0x04, 0x08, delay &&& 0xff, (delay >>> 8) &&& 0xff, 0x00, 0x00]

/-- Image descriptor of `encodeFrame` (source lines 1576–1587). -/
def descriptorBytes (width height : ℕ) : List ℕ :=
  [0x2c, 0x00, 0x00, 0x00, 0x00, width &&& 0xff, (width >>> 8) &&& 0xff,
    height &&& 0xff, (height >>> 8) &&& 0xff, 0x00]

/-- `encodeFrame` (source lines 1556–1607). -/
def encodeFrame (f : Frame) (table : List ℕ) (delay width height : ℕ) : List ℕ :=
  gceBytes delay ++ descriptorBytes width height ++
    lzwEncode (convertToIndexed f table) 8

def gifSignature : List ℕ := [0x47, 0x49, 0x46, 0x38, 0x39, 0x61]

/-- Logical screen descriptor (source lines 1403–1410). -/
def lsdBytes (width height : ℕ) : List ℕ :=
  [width &&& 0xff, (width >>> 8) &&& 0xff, height &&& 0xff, (height >>> 8) &&& 0xff,
    0xf7, 0x00, 0x00]

/-- Netscape looping application extension (source lines 1416–1436). -/
def netscapeBytes : List ℕ :=
  [0x21, 0xff, 0x0b, 0x4e, 0x45, 0x54, 0x53, 0x43, 0x41, 0x50, 0x45, 0x32, 0x2e,
    0x30, 0x03, 0x01, 0x00, 0x00, 0x00]

/-- `encodeGIF` (source lines 1392–1479). -/
def encodeGIF (frames : List Frame) (delay width height : ℕ) (quality : ℚ) :
    List ℕ :=
  let colorTable := buildColorTable frames quality
  gifSignature ++ lsdBytes width height ++ colorTable ++ netscapeBytes ++
    (frames.map (fun f => encodeFrame f colorTable delay width height)).flatten ++
    [0x3b]

/-! ## A GIF block-structure reader (for C1's "exactly one image block per
frame"): walks the container grammar, skipping data sub-blocks by their
length prefixes, and counts image descriptors that directly follow a
graphics-control extension. -/

/-- Consume a sequence of length-prefixed data sub-blocks up to and
including the 0-length terminator; return the remaining bytes. -/
def parseSubBlocks : List ℕ → Option (List ℕ)
  | [] => none
  | 0 :: rest => some rest
  | (n + 1) :: rest =>
    if n + 1 ≤ rest.length then parseSubBlocks (rest.drop (n + 1)) else none
termination_by l => l.length
decreasing_by
  simp
  omega

/-- Count `GCE + image descriptor` blocks until the trailer, requiring the
trailer `0x3b` to be the final byte.  `gceSeen` records whether the
previous block was a graphics-control extension (`0x21 0xf9`). -/
def countImagesAux : ℕ → List ℕ → Bool → ℕ → Option ℕ
  | 0, _, _, _ => none
  | fuel + 1, bytes, gceSeen, acc =>
    match bytes with
    | [] => none
    | b :: rest =>
      if b = 0x3b then (if rest.isEmpty then some acc else none)
      else if b = 0x21 then
        match rest with
        | [] => none
        | label :: rest2 =>
          match parseSubBlocks rest2 with
          | some r => countImagesAux fuel r (label == 0xf9) acc
          | none => none
      else if b = 0x2c then
        if gceSeen = true then
          if 9 ≤ rest.length ∧ (rest.getD 8 0) &&& 0x80 = 0 then
            match rest.drop 9 with
            | [] => none
            | _mcs :: rest2 =>
              match parseSubBlocks rest2 with
              | some r => countImagesAux fuel r false (acc + 1)
              | none => none
          else none
        else none
      else none

/-- Parse a GIF container: signature, logical screen descriptor, global
color table (when flagged), then count the GCE + image-descriptor blocks
up to the trailer. -/
def parseGIF (bytes : List ℕ) : Option ℕ :=
  if bytes.take 6 = gifSignature then
    let rest := bytes.drop 6
    if 7 ≤ rest.length then
      let packed := rest.getD 4 0
      let rest2 := rest.drop 7
      if packed &&& 0x80 ≠ 0 then
        let gctLen := 3 * 2 ^ ((packed &&& 7) + 1)
        if gctLen ≤ rest2.length then
          countImagesAux bytes.length (rest2.drop gctLen) false 0
        else none
      else countImagesAux bytes.length rest2 false 0
    else none
  else none

/-- C2 (failing-input exhibit): on `data = [0,1,2,3,0,1,2,3]` with
`minCodeSize = 2`, the encoder's dictionary crosses the 8-entry code-space
boundary after the third emitted code, so codes from then on carry 4 bits
(`lzwWidths`), but `packLZW`'s own width rule — which increments only when
an emitted code *value* reaches `2^codeSize - 1` — still packs them at
3 bits (`packWidths`); it even packs the code 8, which does not fit in 3
bits.  The packed bit widths do not track the dictionary as the claim
states. -/
theorem lzw_pack_width_mismatch :
    lzwCodes [0, 1, 2, 3, 0, 1, 2, 3] 2 = [4, 0, 1, 2, 3, 6, 8, 5] ∧
    lzwWidths [0, 1, 2, 3, 0, 1, 2, 3] 2 = [3, 3, 3, 4, 4, 4, 4, 4] ∧
    packWidths (lzwCodes [0, 1, 2, 3, 0, 1, 2, 3] 2) 2 = [3, 3, 3, 3, 3, 3, 3, 4] ∧
    lzwWidths [0, 1, 2, 3, 0, 1, 2, 3] 2 ≠
      packWidths (lzwCodes [0, 1, 2, 3, 0, 1, 2, 3] 2) 2 := by
  decide

/-! ### Sub-block structure of `packLZW` output -/

/-- A sequence of data sub-blocks, each prefixed by its length byte. -/
def mkSubBlocks (blocks : List (List ℕ)) : List ℕ :=
  (blocks.map (fun b => b.length :: b)).flatten

theorem parseSubBlocks_mk (blocks : List (List ℕ)) (rest : List ℕ)
    (hb : ∀ b ∈ blocks, 1 ≤ b.length) :
    parseSubBlocks (mkSubBlocks blocks ++ 0 :: rest) = some rest := by
  induction blocks with
  | nil => simp [mkSubBlocks, parseSubBlocks]
  | cons b bs ih =>
    have h1 : 1 ≤ b.length := hb b (by simp)
    obtain ⟨m, hm⟩ : ∃ m, b.length = m + 1 := ⟨b.length - 1, by omega⟩
    have hflat : mkSubBlocks (b :: bs) ++ 0 :: rest =
        (m + 1) :: (b ++ (mkSubBlocks bs ++ 0 :: rest)) := by
      simp [mkSubBlocks, hm]
    have hlen : m + 1 ≤ (b ++ (mkSubBlocks bs ++ 0 :: rest)).length := by
      simp [hm]
    rw [hflat]
    simp only [parseSubBlocks, if_pos hlen]
    rw [List.drop_left' hm]
    exact ih (fun b' hb' => hb b' (by simp [hb']))

/-- The invariant of `packLZW`'s loop state: the flushed output is a wellformed
sub-block sequence, and the pending block holds at most 254 bytes. -/
def PackInv (s : PackSt) : Prop :=
  (∃ blocks, s.out = mkSubBlocks blocks ∧
    ∀ b ∈ blocks, 1 ≤ b.length ∧ b.length ≤ 255) ∧
  s.block.length ≤ 254

theorem mkSubBlocks_append_one (blocks : List (List ℕ)) (b : List ℕ) :
    mkSubBlocks (blocks ++ [b]) = mkSubBlocks blocks ++ b.length :: b := by
  simp [mkSubBlocks]

theorem drain_inv : ∀ (n : ℕ) (s : PackSt), s.bitCount ≤ n → PackInv s →
    PackInv (drain s) := by
  intro n
  induction n with
  | zero =>
    intro s hb h
    unfold drain
    rw [if_neg (by omega)]
    exact h
  | succ n ih =>
    intro s hb h
    unfold drain
    by_cases hc : 8 ≤ s.bitCount
    · rw [if_pos hc]
      obtain ⟨⟨blocks, hout, hblk⟩, hlen⟩ := h
      by_cases hfull : (s.block ++ [s.bitBuffer &&& 0xff]).length = 255
      · rw [if_pos hfull]
        apply ih
        · simp
          omega
        · refine ⟨⟨blocks ++ [s.block ++ [s.bitBuffer &&& 0xff]], ?_, ?_⟩, by simp⟩
          · show s.out ++ _ :: _ = _
            rw [mkSubBlocks_append_one, hout]
          · intro b hbmem
            rcases List.mem_append.mp hbmem with hmem | hmem
            · exact hblk b hmem
            · simp only [List.mem_singleton] at hmem
              subst hmem
              omega
      · rw [if_neg hfull]
        apply ih
        · simp
          omega
        · refine ⟨⟨blocks, hout, hblk⟩, ?_⟩
          show (s.block ++ [s.bitBuffer &&& 0xff]).length ≤ 254
          simp only [List.length_append, List.length_singleton] at hfull ⊢
          omega
    · rw [if_neg hc]
      exact h

theorem packStep_inv (mcs : ℕ) (s : PackSt) (code : ℕ) (h : PackInv s) :
    PackInv (packStep mcs s code) := by
  have h1 : PackInv (drain { s with
      bitBuffer := s.bitBuffer ||| (code <<< s.bitCount)
      bitCount := s.bitCount + s.codeSize }) :=
    drain_inv _ _ le_rfl ⟨h.1, h.2⟩
  simp only [packStep]
  split_ifs <;> exact ⟨h1.1, h1.2⟩

theorem packLZW_structure (codes : List ℕ) (mcs : ℕ) :
    ∃ blocks, packLZW codes mcs = mcs :: mkSubBlocks blocks ++ [0] ∧
      ∀ b ∈ blocks, 1 ≤ b.length ∧ b.length ≤ 255 := by
  have hfold : ∀ (l : List ℕ) (s : PackSt), PackInv s →
      PackInv (l.foldl (packStep mcs) s) := by
    intro l
    induction l with
    | nil => intro s hs; exact hs
    | cons c cs ih => intro s hs; exact ih _ (packStep_inv mcs s c hs)
  have hinv : PackInv (codes.foldl (packStep mcs)
      { bitBuffer := 0, bitCount := 0, codeSize := mcs + 1, block := [], out := [] }) :=
    hfold codes _ ⟨⟨[], rfl, by simp⟩, by simp⟩
  obtain ⟨⟨blocks, hout, hblk⟩, hlen⟩ := hinv
  simp only [packLZW]
  by_cases hbc : 0 < (codes.foldl (packStep mcs)
      { bitBuffer := 0, bitCount := 0, codeSize := mcs + 1, block := [], out := [] }).bitCount
  · rw [if_pos hbc, if_pos (by simp)]
    refine ⟨blocks ++ [(codes.foldl (packStep mcs)
      { bitBuffer := 0, bitCount := 0, codeSize := mcs + 1, block := [],
        out := [] }).block ++ [(codes.foldl (packStep mcs)
      { bitBuffer := 0, bitCount := 0, codeSize := mcs + 1, block := [],
        out := [] }).bitBuffer &&& 0xff]], ?_, ?_⟩
    · rw [mkSubBlocks_append_one, hout]
    · intro b hbmem
      rcases List.mem_append.mp hbmem with hmem | hmem
      · exact hblk b hmem
      · simp only [List.mem_singleton] at hmem
        subst hmem
        constructor
        · simp
        · simp only [List.length_append, List.length_singleton]
          omega
  · rw [if_neg hbc]
    by_cases hblk2 : (codes.foldl (packStep mcs)
        { bitBuffer := 0, bitCount := 0, codeSize := mcs + 1, block := [],
          out := [] }).block ≠ []
    · rw [if_pos hblk2]
      refine ⟨blocks ++ [(codes.foldl (packStep mcs)
        { bitBuffer := 0, bitCount := 0, codeSize := mcs + 1, block := [],
          out := [] }).block], ?_, ?_⟩
      · rw [mkSubBlocks_append_one, hout]
      · intro b hbmem
        rcases List.mem_append.mp hbmem with hmem | hmem
        · exact hblk b hmem
        · simp only [List.mem_singleton] at hmem
          subst hmem
          refine ⟨?_, by omega⟩
          rcases Nat.eq_zero_or_pos (List.length _) with hz | hp
          · exact absurd (List.length_eq_zero.mp hz) hblk2
          · exact hp
    · rw [if_neg hblk2]
      exact ⟨blocks, by rw [hout], hblk⟩


theorem encodeFrame_length_ge (f : Frame) (table : List ℕ) (d w h : ℕ) :
    2 ≤ (encodeFrame f table d w h).length := by
  simp [encodeFrame, gceBytes]

theorem encodeFrames_length_ge (table : List ℕ) (d w h : ℕ) (fs : List Frame) :
    2 * fs.length ≤ ((fs.map (fun f => encodeFrame f table d w h)).flatten).length := by
  induction fs with
  | nil => simp
  | cons f fs ih =>
    have h2 := encodeFrame_length_ge f table d w h
    simp only [List.map_cons, List.flatten_cons, List.length_append, List.length_cons]
    omega

theorem countAux_encodeFrames (table : List ℕ) (d w h : ℕ) :
    ∀ (frames : List Frame) (fuel acc : ℕ) (g : Bool),
      2 * frames.length + 1 ≤ fuel →
      countImagesAux fuel
        ((frames.map (fun f => encodeFrame f table d w h)).flatten ++ [0x3b]) g acc
        = some (acc + frames.length) := by
  intro frames
  induction frames with
  | nil =>
    intro fuel acc g hf
    obtain ⟨m, rfl⟩ : ∃ m, fuel = m + 1 := ⟨fuel - 1, by omega⟩
    simp [countImagesAux]
  | cons f fs ih =>
    intro fuel acc g hf
    simp only [List.length_cons] at hf
    obtain ⟨m, rfl⟩ : ∃ m, fuel = m + 2 := ⟨fuel - 2, by omega⟩
    obtain ⟨body, hlzw, hbody⟩ :=
      packLZW_structure (lzwCodes (convertToIndexed f table) 8) 8
    have hlzw' : lzwEncode (convertToIndexed f table) 8 =
        8 :: mkSubBlocks body ++ [0] := hlzw
    -- normalise the byte stream of the first frame to cons form
    have hbytes : ((List.map (fun f => encodeFrame f table d w h) (f :: fs)).flatten
          ++ [0x3b]) =
        0x21 :: 0xf9 :: (0x04 :: 0x08 :: (d &&& 0xff) :: ((d >>> 8) &&& 0xff) ::
          0 :: 0 :: (0x2c :: 0 :: 0 :: 0 :: 0 :: (w &&& 0xff) :: ((w >>> 8) &&& 0xff)
            :: (h &&& 0xff) :: ((h >>> 8) &&& 0xff) :: 0 ::
            (8 :: (mkSubBlocks body ++ 0 ::
              ((fs.map (fun f => encodeFrame f table d w h)).flatten ++ [0x3b]))))) := by
      simp only [List.map_cons, List.flatten_cons, List.append_assoc]
      rw [encodeFrame, hlzw']
      simp [gceBytes, descriptorBytes]
    rw [hbytes]
    have hps1 : parseSubBlocks (0x04 :: 0x08 :: (d &&& 0xff) :: ((d >>> 8) &&& 0xff) ::
        0 :: 0 :: (0x2c :: 0 :: 0 :: 0 :: 0 :: (w &&& 0xff) :: ((w >>> 8) &&& 0xff)
          :: (h &&& 0xff) :: ((h >>> 8) &&& 0xff) :: 0 ::
          (8 :: (mkSubBlocks body ++ 0 ::
            ((fs.map (fun f => encodeFrame f table d w h)).flatten ++ [0x3b]))))) =
        some (0x2c :: 0 :: 0 :: 0 :: 0 :: (w &&& 0xff) :: ((w >>> 8) &&& 0xff)
          :: (h &&& 0xff) :: ((h >>> 8) &&& 0xff) :: 0 ::
          (8 :: (mkSubBlocks body ++ 0 ::
            ((fs.map (fun f => encodeFrame f table d w h)).flatten ++ [0x3b])))) := by
      have : (0x04 : ℕ) :: 0x08 :: (d &&& 0xff) :: ((d >>> 8) &&& 0xff) :: 0 :: 0 ::
          (0x2c :: 0 :: 0 :: 0 :: 0 :: (w &&& 0xff) :: ((w >>> 8) &&& 0xff)
            :: (h &&& 0xff) :: ((h >>> 8) &&& 0xff) :: 0 ::
            (8 :: (mkSubBlocks body ++ 0 ::
              ((fs.map (fun f => encodeFrame f table d w h)).flatten ++ [0x3b])))) =
          mkSubBlocks [[0x08, d &&& 0xff, (d >>> 8) &&& 0xff, 0]] ++ 0 ::
            (0x2c :: 0 :: 0 :: 0 :: 0 :: (w &&& 0xff) :: ((w >>> 8) &&& 0xff)
              :: (h &&& 0xff) :: ((h >>> 8) &&& 0xff) :: 0 ::
              (8 :: (mkSubBlocks body ++ 0 ::
                ((fs.map (fun f => encodeFrame f table d w h)).flatten ++ [0x3b])))) := by
        simp [mkSubBlocks]
      rw [this]
      exact parseSubBlocks_mk _ _ (by simp)
    have hps2 : parseSubBlocks (mkSubBlocks body ++ 0 ::
          ((fs.map (fun f => encodeFrame f table d w h)).flatten ++ [0x3b])) =
        some ((fs.map (fun f => encodeFrame f table d w h)).flatten ++ [0x3b]) :=
      parseSubBlocks_mk _ _ (fun b hb => (hbody b hb).1)
    simp only [countImagesAux, hps1]
    norm_num
    rw [hps2]
    show countImagesAux m
        ((fs.map (fun f => encodeFrame f table d w h)).flatten ++ [0x3b]) false
        (acc + 1) = some (acc + (fs.length + 1))
    rw [ih m (acc + 1) false (by omega)]
    congr 1
    omega

theorem flatten_length_of_three (g : ℕ → List ℕ) (hg : ∀ x, (g x).length = 3) :
    ∀ l : List ℕ, ((l.map g).flatten).length = 3 * l.length := by
  intro l
  induction l with
  | nil => simp
  | cons x xs ih =>
    simp only [List.map_cons, List.flatten_cons, List.length_append, List.length_cons,
      hg, ih]
    ring

/-- The global color table always serialises to exactly 768 bytes. -/
theorem buildColorTable_length (frames : List Frame) (q : ℚ) :
    (buildColorTable frames q).length = 768 := by
  simp only [buildColorTable]
  rw [flatten_length_of_three]
  · simp
  · intro x
    rfl

/-- C1: `encodeGIF` output starts with the six signature bytes "GIF89a",
ends with the single trailer byte `0x3b`, and walking the GIF block
grammar finds exactly one image block per input frame, each one a
graphics-control extension (`0x21 0xf9`) followed by an image descriptor
(`0x2c`). -/
theorem encodeGIF_structure (frames : List Frame) (delay w h : ℕ) (q : ℚ) :
    (encodeGIF frames delay w h q).take 6 = gifSignature ∧
    (encodeGIF frames delay w h q).getLast? = some 0x3b ∧
    parseGIF (encodeGIF frames delay w h q) = some frames.length := by
  have hassoc : encodeGIF frames delay w h q =
      gifSignature ++ (lsdBytes w h ++ (buildColorTable frames q ++ (netscapeBytes ++
        ((frames.map (fun f => encodeFrame f (buildColorTable frames q) delay w h)).flatten
          ++ [0x3b])))) := by
    simp [encodeGIF, List.append_assoc]
  refine ⟨?_, ?_, ?_⟩
  · rw [hassoc]
    exact List.take_left' rfl
  · have hconc : encodeGIF frames delay w h q =
        (gifSignature ++ lsdBytes w h ++ buildColorTable frames q ++ netscapeBytes ++
          (frames.map (fun f => encodeFrame f (buildColorTable frames q) delay w h)).flatten)
          ++ [0x3b] := by
      simp [encodeGIF, List.append_assoc]
    rw [hconc]
    exact List.getLast?_concat _
  · have hfuel : 2 * frames.length + 2 ≤ (encodeGIF frames delay w h q).length := by
      rw [hassoc]
      have hb := encodeFrames_length_ge (buildColorTable frames q) delay w h frames
      simp only [List.length_append, gifSignature, lsdBytes, netscapeBytes,
        List.length_cons, List.length_nil]
      omega
    obtain ⟨m, hm⟩ : ∃ m, (encodeGIF frames delay w h q).length = m + 1 :=
      ⟨(encodeGIF frames delay w h q).length - 1, by omega⟩
    have hmge : 2 * frames.length + 1 ≤ m := by omega
    conv_lhs => rw [hassoc]
    simp only [parseGIF]
    rw [@List.take_left' ℕ gifSignature _ 6 rfl, if_pos rfl,
      @List.drop_left' ℕ gifSignature _ 6 rfl]
    rw [if_pos (by simp [lsdBytes])]
    rw [List.getD_append (lsdBytes w h) _ 0 4 (by simp [lsdBytes])]
    have hpacked : (lsdBytes w h).getD 4 0 = 0xf7 := rfl
    rw [hpacked]
    rw [if_pos (by decide)]
    rw [@List.drop_left' ℕ (lsdBytes w h) _ 7 rfl]
    have hgct : 3 * 2 ^ (((0xf7 : ℕ) &&& 7) + 1) = 768 := by decide
    rw [hgct]
    rw [if_pos (by rw [List.length_append, buildColorTable_length]; omega)]
    rw [List.drop_left' (buildColorTable_length frames q)]
    rw [← hassoc, hm]
    -- the netscape extension step
    have hns : netscapeBytes ++
        ((frames.map (fun f => encodeFrame f (buildColorTable frames q) delay w h)).flatten
          ++ [0x3b]) =
        0x21 :: 0xff :: (mkSubBlocks [[0x4e, 0x45, 0x54, 0x53, 0x43, 0x41, 0x50,
          0x45, 0x32, 0x2e, 0x30], [0x01, 0x00, 0x00]] ++ 0 ::
          ((frames.map (fun f => encodeFrame f (buildColorTable frames q) delay w h)).flatten
            ++ [0x3b])) := by
      simp [netscapeBytes, mkSubBlocks]
    rw [hns]
    simp only [countImagesAux]
    norm_num
    rw [parseSubBlocks_mk _ _ (by simp)]
    show countImagesAux m
        ((frames.map (fun f => encodeFrame f (buildColorTable frames q) delay w h)).flatten
          ++ [0x3b]) false 0 = some frames.length
    rw [countAux_encodeFrames _ delay w h frames m 0 false hmge]
    simp

/-! ### Color table padding and nearest-color lookup (C10) -/

theorem flatten_getD_three (g : ℕ → List ℕ) (hg : ∀ x, (g x).length = 3) :
    ∀ (l : List ℕ) (j k : ℕ), j < l.length → k < 3 →
      ((l.map g).flatten).getD (3 * j + k) 0 = (g (l.getD j 0)).getD k 0 := by
  intro l
  induction l with
  | nil => intro j k hj _; simp at hj
  | cons x xs ih =>
    intro j k hj hk
    cases j with
    | zero =>
      simp only [List.map_cons, List.flatten_cons, Nat.mul_zero, Nat.zero_add]
      rw [List.getD_append _ _ _ _ (by rw [hg]; omega)]
      rfl
    | succ j =>
      simp only [List.map_cons, List.flatten_cons]
      have h3 : 3 * (j + 1) + k = (g x).length + (3 * j + k) := by rw [hg]; ring
      rw [h3, List.getD_append_right _ _ _ _ (by omega), Nat.add_sub_cancel_left]
      exact ih j k (by simpa using hj) hk

theorem getD_replicate_zero (n i : ℕ) : (List.replicate n 0).getD i 0 = 0 := by
  induction n generalizing i with
  | zero => simp
  | succ n ih =>
    cases i with
    | zero => rfl
    | succ i => exact ih i

theorem nearestFrom_min (r g b : ℕ) (table : List ℕ) :
    ∀ (is : List ℕ) (md : Option ℤ) (best : ℕ),
      (∀ m, md = some m → m = distRGB r g b table best) →
      (∀ j ∈ is, distRGB r g b table (nearestFrom r g b table is md best) ≤
        distRGB r g b table j) ∧
      (∀ m, md = some m →
        distRGB r g b table (nearestFrom r g b table is md best) ≤ m) := by
  intro is
  induction is with
  | nil =>
    intro md best hmd
    refine ⟨by simp, ?_⟩
    intro m hm
    rw [nearestFrom, hmd m hm]
  | cons i is ih =>
    intro md best hmd
    cases md with
    | none =>
      obtain ⟨h1, h2⟩ := ih (some (distRGB r g b table i)) i (fun m hm => by
        injection hm with hm; rw [← hm])
      constructor
      · intro j hj
        rcases List.mem_cons.mp hj with hj | hj
        · subst hj
          exact h2 _ rfl
        · exact h1 j hj
      · intro m hm
        simp at hm
    | some m =>
      have hm := hmd m rfl
      by_cases hlt : distRGB r g b table i < m
      · obtain ⟨h1, h2⟩ := ih (some (distRGB r g b table i)) i (fun m' hm' => by
          injection hm' with hm'; rw [← hm'])
        rw [nearestFrom]
        simp only [if_pos hlt]
        constructor
        · intro j hj
          rcases List.mem_cons.mp hj with hj | hj
          · subst hj
            exact h2 _ rfl
          · exact h1 j hj
        · intro m' hm'
          injection hm' with hm'
          subst hm'
          exact le_of_lt (lt_of_le_of_lt (h2 _ rfl) hlt)
      · obtain ⟨h1, h2⟩ := ih (some m) best hmd
        rw [nearestFrom]
        simp only [if_neg hlt]
        constructor
        · intro j hj
          rcases List.mem_cons.mp hj with hj | hj
          · subst hj
            exact le_trans (h2 m rfl) (not_lt.mp hlt)
          · exact h1 j hj
        · intro m' hm'
          injection hm' with hm'
          subst hm'
          exact h2 _ rfl

theorem findNearestColor_min (r g b : ℕ) (table : List ℕ) :
    ∀ j < 256, distRGB r g b table (findNearestColor r g b table) ≤
      distRGB r g b table j := by
  intro j hj
  have h := (nearestFrom_min r g b table (List.range 256) none 0
    (fun m hm => by simp at hm)).1
  exact h j (List.mem_range.mpr hj)

/-- C10: the global color table is always exactly 768 bytes (256 RGB
entries); when fewer than 256 distinct opaque colors were sampled, every
remaining entry is padded with black `(0,0,0)`; and `findNearestColor`
returns an index whose palette distance is minimal among all 256 entries —
so the padded black entries participate as candidates in nearest-color
lookup during frame indexing. -/
theorem buildColorTable_spec (frames : List Frame) (q : ℚ) :
    (buildColorTable frames q).length = 768 ∧
    ((sampledColors frames q).length < 256 →
      ∀ i, (sampledColors frames q).length ≤ i → i < 256 →
        byteAt (buildColorTable frames q) (3 * i) = 0 ∧
        byteAt (buildColorTable frames q) (3 * i + 1) = 0 ∧
        byteAt (buildColorTable frames q) (3 * i + 2) = 0) ∧
    (∀ r g b j, j < 256 →
      distRGB r g b (buildColorTable frames q)
          (findNearestColor r g b (buildColorTable frames q)) ≤
        distRGB r g b (buildColorTable frames q) j) := by
  refine ⟨buildColorTable_length frames q, ?_, ?_⟩
  · intro hcnt i hle hlt
    have hpad : ((if 256 < (sampledColors frames q).length then
          quantizeColors (sampledColors frames q) 256 else sampledColors frames q) ++
        List.replicate (256 - (if 256 < (sampledColors frames q).length then
          quantizeColors (sampledColors frames q) 256 else
          sampledColors frames q).length) 0).getD i 0 = 0 := by
      rw [if_neg (by omega)]
      rw [List.getD_append_right _ _ _ _ hle]
      exact getD_replicate_zero _ _
    have hrange : (List.range 256).getD i 0 = i := by
      rw [List.getD_eq_getElem?_getD, List.getElem?_range hlt]
      rfl
    have hbyte : ∀ k, k < 3 → byteAt (buildColorTable frames q) (3 * i + k) = 0 := by
      intro k hk
      show (buildColorTable frames q).getD (3 * i + k) 0 = 0
      simp only [buildColorTable]
      rw [flatten_getD_three]
      · rw [hrange, hpad]
        interval_cases k <;> rfl
      · intro x
        rfl
      · simp [hlt]
      · exact hk
    refine ⟨?_, hbyte 1 (by omega), hbyte 2 (by omega)⟩
    have h0 := hbyte 0 (by omega)
    simpa using h0
  · intro r g b j hj
    exact findNearestColor_min r g b _ j hj

/-- Witness for C10 on an empty frame list (0 sampled colors): the table
is 768 bytes and its first entry is padded black. -/
theorem buildColorTable_spec_witness :
    (buildColorTable [] 1).length = 768 ∧
    byteAt (buildColorTable [] 1) 0 = 0 ∧
    byteAt (buildColorTable [] 1) 1 = 0 ∧
    byteAt (buildColorTable [] 1) 2 = 0 := by
  have h := buildColorTable_spec [] 1
  have hcnt : (sampledColors [] 1).length < 256 := by norm_num [sampledColors]
  have hp := h.2.1 hcnt 0 (by norm_num [sampledColors]) (by norm_num)
  refine ⟨h.1, ?_, ?_, ?_⟩
  · simpa using hp.1
  · simpa using hp.2.1
  · simpa using hp.2.2

end Signature
